import Mathlib

/-!
rparse: the ELF reader and the analyzer that owns it.

A shallow embedding of `src/analyzer.hpp`.

* `ElfioReader` wraps a heap-allocated parsing engine (`ELFIO::elfio`) behind a
  `std::unique_ptr`; the pointer is nullable and is modelled by `Option`.
* The engine is an external collaborator.  What the program uses of it is its
  `load` routine and its ordered section collection; both are captured by
  `Engine` (the behaviour of `load`) and `elfio` (the state of one engine object).
* C++ calls that may return, throw, have undefined behaviour (a null
  dereference), or end the process through `std::terminate` (an exception
  reaching a `noexcept` boundary) evaluate to an `Outcome`.
* `std::size_t` arithmetic is arithmetic on `Nat` reduced modulo `2 ^ 64`.

Allocation failure (`std::bad_alloc`) is not modelled.
-/

namespace rparse

/-! ## Data model -/

/-- Error possibilities expected on API calls (`enum class Error`). -/
inductive Error where
  | kLoadElf
  deriving DecidableEq, Repr

/-- Result of evaluating a C++ call: it returns a value, it throws (the payload
is the `what()` text of the exception), it has undefined behaviour, or it ends
the process through `std::terminate`. -/
inductive Outcome (α : Type) where
  | returned (a : α)
  | raised (what : String)
  | undefined
  | terminated
  deriving DecidableEq, Repr

/-- Section type tag of program-defined contents (`SHT_PROGBITS` in
`elfio/elf_types.hpp`). -/
def SHT_PROGBITS : Nat := 1

/-- Section type tag of a symbol table (`SHT_SYMTAB` in `elfio/elf_types.hpp`). -/
def SHT_SYMTAB : Nat := 2

/-- Width in bits of `std::size_t` on the 64-bit host the tool is built for. -/
def SIZE_BITS : Nat := 64

/-- One entry of the engine's section collection, seen through the accessors of
`ELFIO::section`.  Only `get_type` and `get_size` are read by the program. -/
structure Section where
  get_name : String
  get_type : Nat
  get_flags : Nat
  get_size : Nat
  deriving DecidableEq, Repr

/-- State of one `ELFIO::elfio` object.  `sections` is the ordered section
collection.  `load_calls` is a ghost history of the arguments of the `load`
calls made on this object; the program never reads it. -/
structure elfio where
  sections : List Section
  load_calls : List String
  deriving DecidableEq, Repr

/-- Behaviour of the external parsing engine: the section collection of a
default-constructed engine, and what `load` does to the section collection for
a given path (its outcome, and the collection it leaves behind). -/
structure Engine where
  fresh : List Section
  load : List Section → String → Outcome Bool × List Section

/-- The call `ELFIO::elfio::elfio()`. -/
def elfio.ctor (eng : Engine) : elfio :=
  { sections := eng.fresh, load_calls := [] }

/-- The call `engine.load(path)`: the engine acts on its section collection and
the call is recorded in the ghost history. -/
def elfio.load (eng : Engine) (self : elfio) (path : String) : Outcome Bool × elfio :=
  ((eng.load self.sections path).1,
   { sections := (eng.load self.sections path).2,
     load_calls := self.load_calls ++ [path] })

/-! ## `ElfioReader` -/

/-- Concrete implementation of the reader; `m_reader` is the
`std::unique_ptr<ELFIO::elfio>` member (`none` is the null pointer). -/
structure ElfioReader where
  m_reader : Option elfio
  deriving DecidableEq, Repr

/-- The constructor `ElfioReader()`: `m_reader = std::make_unique<ELFIO::elfio>()`. -/
def ElfioReader.ctor (eng : Engine) : Outcome ElfioReader :=
  .returned { m_reader := some (elfio.ctor eng) }

/-- The method `ElfioReader::Load`.  The `try` block holds the single engine
call; `catch (...)` turns every exception into `Error::kLoadElf`. -/
def ElfioReader.Load (eng : Engine) (self : ElfioReader) (file_name : String) :
    Outcome (Except Error Unit) × ElfioReader :=
  match self.m_reader with
  | none => (.undefined, self)
  | some e =>
    match elfio.load eng e file_name with
    | (.returned load_ok, e') =>
      if !load_ok then (.returned (.error Error.kLoadElf), { m_reader := some e' })
      else (.returned (.ok ()), { m_reader := some e' })
    | (.raised _, e') => (.returned (.error Error.kLoadElf), { m_reader := some e' })
    | (.undefined, e') => (.undefined, { m_reader := some e' })
    | (.terminated, e') => (.terminated, { m_reader := some e' })

/-- One iteration of the loop body of `GetNumberOfInstructions`:
`if (sec->get_type() == SHT_PROGBITS) num_instructions += sec->get_size();`
on a `std::size_t` accumulator. -/
def accumulate (num_instructions : Nat) (sec : Section) : Nat :=
  if sec.get_type = SHT_PROGBITS then (num_instructions + sec.get_size) % 2 ^ SIZE_BITS
  else num_instructions

/-- The range-for loop of `GetNumberOfInstructions` over the section
collection, started from `num_instructions`. -/
def countLoop (num_instructions : Nat) (sections : List Section) : Nat :=
  sections.foldl accumulate num_instructions

/-- The method `ElfioReader::GetNumberOfInstructions`; dereferencing a null
`m_reader` is undefined. -/
def ElfioReader.GetNumberOfInstructions (self : ElfioReader) : Outcome Nat :=
  match self.m_reader with
  | none => .undefined
  | some e => .returned (countLoop 0 e.sections)

/-- A reader whose engine currently holds the section table `secs`. -/
def readerOf (secs : List Section) (calls : List String) : ElfioReader :=
  { m_reader := some { sections := secs, load_calls := calls } }

/-! ## Specification-side sums -/

/-- Exact (unbounded) sum of `get_size` over the sections of type `SHT_PROGBITS`. -/
def progbitsTotal (sections : List Section) : Nat :=
  ((sections.filter (fun s => decide (s.get_type = SHT_PROGBITS))).map Section.get_size).sum

/-- The three-section table of the documented scenario. -/
def scenarioTable : List Section :=
  [ { get_name := ".text", get_type := SHT_PROGBITS, get_flags := 6, get_size := 128 },
    { get_name := ".symtab", get_type := SHT_SYMTAB, get_flags := 0, get_size := 64 },
    { get_name := ".data", get_type := SHT_PROGBITS, get_flags := 3, get_size := 32 } ]

/-- Two program-bits sections of `2 ^ 63` bytes each. -/
def hugeTable : List Section :=
  [ { get_name := ".a", get_type := SHT_PROGBITS, get_flags := 0, get_size := 2 ^ 63 },
    { get_name := ".b", get_type := SHT_PROGBITS, get_flags := 0, get_size := 2 ^ 63 } ]

/-! ## `Analyzer<elf_reader_t>` -/

/-- What `Analyzer<elf_reader_t>` uses of its reader type: the default
constructor (member initialiser `m_elf_reader{}`), `Load` (the one operation the
`ElfReader` concept constrains; it is not required to be `noexcept`, and it
acts on the reader it is called on), the move constructor (`move src` is the
reader it builds from the reader `src`; the concept does not constrain it, so
it may throw or build a reader in another state), and the query the analyzer
forwards to. -/
structure ElfReader (R : Type) where
  ctor : Outcome R
  Load : R → String → Outcome (Except Error Unit) × R
  move : R → Outcome R
  GetNumberOfInstructions : R → Outcome Nat

/-- The class `Analyzer<elf_reader_t>`: its only data member is the reader,
held by value. -/
structure Analyzer (R : Type) where
  m_elf_reader : R
  deriving DecidableEq, Repr

/-- The private constructor `Analyzer(std::string_view)`: default-construct the
reader, call `Load`, and throw `std::runtime_error` when `Load` reports an
error.  An exception leaving `Load` or the reader constructor leaves this
constructor too. -/
def Analyzer.ctor {R : Type} (rt : ElfReader R) (elf_filename : String) :
    Outcome (Analyzer R) :=
  match rt.ctor with
  | .raised what => .raised what
  | .undefined => .undefined
  | .terminated => .terminated
  | .returned r0 =>
    match rt.Load r0 elf_filename with
    | (.raised what, _) => .raised what
    | (.undefined, _) => .undefined
    | (.terminated, _) => .terminated
    | (.returned (.error _), _) => .raised "ELF file could not be loaded properly"
    | (.returned (.ok _), r1) => .returned { m_elf_reader := r1 }

/-- The move constructor `Analyzer(Analyzer&&) noexcept = default`: it builds the
new analyzer's reader with the reader's move constructor; being `noexcept`, an
exception of that constructor ends in `std::terminate`. -/
def Analyzer.moveConstruct {R : Type} (rt : ElfReader R) (src : Analyzer R) :
    Outcome (Analyzer R) :=
  match rt.move src.m_elf_reader with
  | .returned r => .returned { m_elf_reader := r }
  | .raised _ => .terminated
  | .undefined => .undefined
  | .terminated => .terminated

/-- The static factory `Analyzer::Create`: the `try` block constructs the local
`analyzer` and returns it, which move-constructs the analyzer held by the
result from the local; `catch (...)` answers `Error::kLoadElf`. -/
def Analyzer.Create {R : Type} (rt : ElfReader R) (elf_filename : String) :
    Outcome (Except Error (Analyzer R)) :=
  match Analyzer.ctor rt elf_filename with
  | .returned analyzer =>
    match Analyzer.moveConstruct rt analyzer with
    | .returned result => .returned (.ok result)
    | .raised _ => .returned (.error Error.kLoadElf)
    | .undefined => .undefined
    | .terminated => .terminated
  | .raised _ => .returned (.error Error.kLoadElf)
  | .undefined => .undefined
  | .terminated => .terminated

/-- The method `Analyzer::GetNumberOfInstructions`:
`return m_elf_reader.GetNumberOfInstructions();` in a `noexcept` function. -/
def Analyzer.GetNumberOfInstructions {R : Type} (rt : ElfReader R) (self : Analyzer R) :
    Outcome Nat :=
  match rt.GetNumberOfInstructions self.m_elf_reader with
  | .raised _ => .terminated
  | outcome => outcome

/-- The implicit move constructor of `ElfioReader`: it moves the
`std::unique_ptr` member, so the new reader takes the engine pointer; it does
not throw. -/
def ElfioReader.move (src : ElfioReader) : Outcome ElfioReader :=
  .returned { m_reader := src.m_reader }

/-- The reader type `ElfioReader`, running against the engine `eng`. -/
def ElfioReaderT (eng : Engine) : ElfReader ElfioReader :=
  { ctor := ElfioReader.ctor eng
    Load := ElfioReader.Load eng
    move := ElfioReader.move
    GetNumberOfInstructions := ElfioReader.GetNumberOfInstructions }

/-- The alias `using ElfioAnalyzer = Analyzer<ElfioReader>`. -/
abbrev ElfioAnalyzer : Type := Analyzer ElfioReader

/-! ## Move operations of `ElfioAnalyzer`

Both are defaulted, so they move the reader member, whose implicit move
operations move the `std::unique_ptr`: the destination takes the engine pointer
and the source is left holding the null pointer. -/

/-- Move construction `ElfioAnalyzer b{std::move(src)}`: the pair of the new
object and the source afterwards. -/
def ElfioAnalyzer.moveCtor (src : ElfioAnalyzer) : ElfioAnalyzer × ElfioAnalyzer :=
  ({ m_elf_reader := { m_reader := src.m_elf_reader.m_reader } },
   { m_elf_reader := { m_reader := none } })

/-- Move assignment `dst = std::move(src)` between two distinct objects: the
engine `dst` owned is destroyed; the pair is `dst` and `src` afterwards. -/
def ElfioAnalyzer.moveAssign (_dst src : ElfioAnalyzer) : ElfioAnalyzer × ElfioAnalyzer :=
  ({ m_elf_reader := { m_reader := src.m_elf_reader.m_reader } },
   { m_elf_reader := { m_reader := none } })

/-! ## Caller-visible states

A caller holds analyzers in named variables; the store lists them in order of
creation and an index names a variable. -/

/-- The operations a caller has on analyzers. -/
inductive Op where
  | create (path : String)
  | moveConstruct (src : Nat)
  | moveAssign (dst src : Nat)
  deriving DecidableEq, Repr

/-- Effect of one caller operation.  A failed `Create` adds no variable.  A
move names existing variables (otherwise the operation is not available and the
store is unchanged); assigning a variable to itself leaves the `unique_ptr`,
hence the analyzer, as it was. -/
def step (eng : Engine) (s : List ElfioAnalyzer) : Op → List ElfioAnalyzer
  | .create path =>
    match Analyzer.Create (ElfioReaderT eng) path with
    | .returned (.ok a) => s ++ [a]
    | _ => s
  | .moveConstruct src =>
    match s[src]? with
    | none => s
    | some a => (s.set src (ElfioAnalyzer.moveCtor a).2) ++ [(ElfioAnalyzer.moveCtor a).1]
  | .moveAssign dst src =>
    match s[dst]?, s[src]? with
    | some d, some a =>
      if dst = src then s
      else (s.set src (ElfioAnalyzer.moveAssign d a).2).set dst (ElfioAnalyzer.moveAssign d a).1
    | _, _ => s

/-- The store reached from the empty store by a sequence of operations. -/
def run (eng : Engine) (ops : List Op) : List ElfioAnalyzer :=
  ops.foldl (step eng) []

/-- Effect of one caller operation on the store in which every variable carries
a ghost mark.  The analyzers are those of `step`.  The mark of a variable is
`true` when it was the source of a move and has not since been the target of a
move assignment, or when it received its reader, by a move, from a variable
marked `true`; a variable made by `Create` is marked `false`. -/
def stepMarked (eng : Engine) (st : List (ElfioAnalyzer × Bool)) :
    Op → List (ElfioAnalyzer × Bool)
  | .create path =>
    match Analyzer.Create (ElfioReaderT eng) path with
    | .returned (.ok a) => st ++ [(a, false)]
    | _ => st
  | .moveConstruct src =>
    match st[src]? with
    | none => st
    | some p =>
      (st.set src ((ElfioAnalyzer.moveCtor p.1).2, true)) ++
        [((ElfioAnalyzer.moveCtor p.1).1, p.2)]
  | .moveAssign dst src =>
    match st[dst]?, st[src]? with
    | some d, some p =>
      if dst = src then st
      else (st.set src ((ElfioAnalyzer.moveAssign d.1 p.1).2, true)).set dst
        ((ElfioAnalyzer.moveAssign d.1 p.1).1, p.2)
    | _, _ => st

/-- The marked store reached from the empty store by a sequence of operations. -/
def runMarked (eng : Engine) (ops : List Op) : List (ElfioAnalyzer × Bool) :=
  ops.foldl (stepMarked eng) []

/-- The analyzer owns a reader on which `Load` completed successfully: its
reader is in the state a successful `Load` of some path left a freshly
constructed reader in. -/
def Ready {R : Type} (rt : ElfReader R) (a : Analyzer R) : Prop :=
  ∃ path r0, rt.ctor = .returned r0 ∧ rt.Load r0 path = (.returned (.ok ()), a.m_elf_reader)

/-! ## Sample engines and readers -/

/-- An engine for which `/code/data/test.elf` holds the scenario table,
`/broken.elf` makes the parser throw, and every other path cannot be opened. -/
def sampleEngine : Engine :=
  { fresh := []
    load := fun secs path =>
      if path = "/code/data/test.elf" then (.returned true, scenarioTable)
      else if path = "/broken.elf" then (.raised "bad section table", secs)
      else (.returned false, secs) }

/-- The engine object after `sampleEngine` loaded `/code/data/test.elf`. -/
def sampleLoaded : elfio :=
  { sections := scenarioTable, load_calls := ["/code/data/test.elf"] }

theorem progbitsTotal_nil : progbitsTotal [] = 0 := rfl

theorem progbitsTotal_cons (s : Section) (rest : List Section) :
    progbitsTotal (s :: rest) =
      (if s.get_type = SHT_PROGBITS then s.get_size else 0) + progbitsTotal rest := by
  unfold progbitsTotal
  by_cases h : s.get_type = SHT_PROGBITS
  · simp [List.filter_cons, h]
  · simp [List.filter_cons, h]

theorem countLoop_cons (acc : Nat) (s : Section) (rest : List Section) :
    countLoop acc (s :: rest) = countLoop (accumulate acc s) rest := rfl

/-- The loop computes the exact sum reduced modulo `2 ^ 64`, from any
accumulator that is itself a `std::size_t` value. -/
theorem countLoop_eq_mod (sections : List Section) :
    ∀ acc : Nat, acc < 2 ^ SIZE_BITS →
      countLoop acc sections = (acc + progbitsTotal sections) % 2 ^ SIZE_BITS := by
  induction sections with
  | nil =>
    intro acc hacc
    simp [countLoop, progbitsTotal_nil, Nat.mod_eq_of_lt hacc]
  | cons s rest ih =>
    intro acc hacc
    rw [countLoop_cons, progbitsTotal_cons]
    by_cases h : s.get_type = SHT_PROGBITS
    · have hlt : (acc + s.get_size) % 2 ^ SIZE_BITS < 2 ^ SIZE_BITS :=
        Nat.mod_lt _ (Nat.pos_pow_of_pos _ (by decide))
      simp only [accumulate, h, if_true]
      rw [ih _ hlt, Nat.mod_add_mod, Nat.add_assoc]
    · simp only [accumulate, h, if_false, Nat.zero_add]
      exact ih acc hacc

theorem countLoop_zero (sections : List Section) :
    countLoop 0 sections = progbitsTotal sections % 2 ^ SIZE_BITS := by
  have h := countLoop_eq_mod sections 0 (Nat.pos_pow_of_pos _ (by decide))
  simpa using h

theorem progbitsTotal_perm {a b : List Section} (h : a.Perm b) :
    progbitsTotal a = progbitsTotal b := by
  unfold progbitsTotal
  exact ((h.filter _).map _).sum_eq

theorem progbitsTotal_map_frame (f : Section → Section)
    (htype : ∀ s, (f s).get_type = s.get_type) (hsize : ∀ s, (f s).get_size = s.get_size)
    (sections : List Section) :
    progbitsTotal (sections.map f) = progbitsTotal sections := by
  induction sections with
  | nil => rfl
  | cons s rest ih =>
    rw [List.map_cons, progbitsTotal_cons, progbitsTotal_cons, ih, htype, hsize]

theorem progbitsTotal_eq_zero (sections : List Section)
    (h : ∀ s ∈ sections, s.get_type ≠ SHT_PROGBITS) : progbitsTotal sections = 0 := by
  induction sections with
  | nil => rfl
  | cons s rest ih =>
    rw [progbitsTotal_cons, if_neg (h s (List.mem_cons_self _ _)),
      ih (fun t ht => h t (List.mem_cons_of_mem _ ht))]

theorem GetNumberOfInstructions_readerOf (secs : List Section) (calls : List String) :
    ElfioReader.GetNumberOfInstructions (readerOf secs calls) =
      .returned (progbitsTotal secs % 2 ^ SIZE_BITS) := by
  simp [ElfioReader.GetNumberOfInstructions, readerOf, countLoop_zero]

/-! ## Lemmas about `Load` and `Create` -/

/-- The reader after `Load` holds the engine after its one `load` call. -/
theorem Load_reader (eng : Engine) (e : elfio) (path : String) :
    (ElfioReader.Load eng { m_reader := some e } path).2 =
      { m_reader := some (elfio.load eng e path).2 } := by
  unfold ElfioReader.Load elfio.load
  rcases h : (eng.load e.sections path).1 with b | w | _ | _
  · cases b <;> simp [h]
  · simp [h]
  · simp [h]
  · simp [h]

/-- The answer of `Load` as a function of the engine outcome. -/
theorem Load_result (eng : Engine) (e : elfio) (path : String) :
    (ElfioReader.Load eng { m_reader := some e } path).1 =
      match (eng.load e.sections path).1 with
      | .returned true => .returned (.ok ())
      | .returned false => .returned (.error Error.kLoadElf)
      | .raised _ => .returned (.error Error.kLoadElf)
      | .undefined => .undefined
      | .terminated => .terminated := by
  unfold ElfioReader.Load elfio.load
  rcases h : (eng.load e.sections path).1 with b | w | _ | _
  · cases b <;> simp [h]
  · simp [h]
  · simp [h]
  · simp [h]

/-- The private constructor returns exactly when the reader was constructed
and its `Load` answered success; the analyzer holds the reader `Load` left. -/
theorem ctor_returned_iff {R : Type} (rt : ElfReader R) (path : String) (a : Analyzer R) :
    Analyzer.ctor rt path = .returned a ↔
      ∃ r0, rt.ctor = .returned r0 ∧ rt.Load r0 path = (.returned (.ok ()), a.m_elf_reader) := by
  unfold Analyzer.ctor
  rcases hc : rt.ctor with r0 | w | _ | _
  · rcases hl : rt.Load r0 path with ⟨o, r1⟩
    rcases o with res | w | _ | _
    · rcases res with err | u
      · simp [hl]
      · cases a
        simp [hl]
    · simp [hl]
    · simp [hl]
    · simp [hl]
  · simp
  · simp
  · simp

/-- `Create` answers an analyzer exactly when the reader was constructed, its
`Load` answered success, and the reader's move constructor returned; the
analyzer holds the reader that move built. -/
theorem Create_ok_iff {R : Type} (rt : ElfReader R) (path : String) (a : Analyzer R) :
    Analyzer.Create rt path = .returned (.ok a) ↔
      ∃ r0 r1, rt.ctor = .returned r0 ∧ rt.Load r0 path = (.returned (.ok ()), r1) ∧
        rt.move r1 = .returned a.m_elf_reader := by
  rcases hk : Analyzer.ctor rt path with loc | w | _ | _
  · obtain ⟨r0, hc, hl⟩ := (ctor_returned_iff rt path loc).1 hk
    have back : ∀ q0 q1, rt.ctor = .returned q0 →
        rt.Load q0 path = (.returned (.ok ()), q1) → q1 = loc.m_elf_reader := by
      intro q0 q1 hc2 hl2
      rw [hc] at hc2
      cases hc2
      rw [hl] at hl2
      cases hl2
      rfl
    simp only [Analyzer.Create, hk, Analyzer.moveConstruct]
    rcases hm : rt.move loc.m_elf_reader with r | w | _ | _
    · constructor
      · intro h
        simp only [Outcome.returned.injEq, Except.ok.injEq] at h
        subst h
        exact ⟨r0, loc.m_elf_reader, hc, hl, hm⟩
      · rintro ⟨q0, q1, hc2, hl2, hm2⟩
        rw [back q0 q1 hc2 hl2, hm] at hm2
        cases a
        simp only [Outcome.returned.injEq] at hm2
        subst hm2
        rfl
    · constructor
      · intro h
        simp at h
      · rintro ⟨q0, q1, hc2, hl2, hm2⟩
        rw [back q0 q1 hc2 hl2, hm] at hm2
        cases hm2
    · constructor
      · intro h
        simp at h
      · rintro ⟨q0, q1, hc2, hl2, hm2⟩
        rw [back q0 q1 hc2 hl2, hm] at hm2
        cases hm2
    · constructor
      · intro h
        simp at h
      · rintro ⟨q0, q1, hc2, hl2, hm2⟩
        rw [back q0 q1 hc2 hl2, hm] at hm2
        cases hm2
  all_goals
    simp only [Analyzer.Create, hk]
    constructor
    · intro h
      simp at h
    · rintro ⟨q0, q1, hc2, hl2, _⟩
      have hk2 := (ctor_returned_iff rt path { m_elf_reader := q1 }).2 ⟨q0, hc2, hl2⟩
      rw [hk] at hk2
      cases hk2

/-- A successful `Load` on a freshly constructed `ElfioReader`, in terms of the
engine: `load` answered true, and the reader holds the engine it left. -/
theorem Load_fresh_ok_iff (eng : Engine) (path : String) (r : ElfioReader) :
    ElfioReader.Load eng { m_reader := some (elfio.ctor eng) } path = (.returned (.ok ()), r) ↔
      (eng.load eng.fresh path).1 = .returned true ∧
        r = { m_reader := some { sections := (eng.load eng.fresh path).2,
                                 load_calls := [path] } } := by
  rw [Prod.ext_iff, Load_result, Load_reader]
  simp only [elfio.load, elfio.ctor, List.nil_append]
  rcases h : (eng.load eng.fresh path).1 with b | w | _ | _
  · cases b <;> simp [eq_comm]
  · simp
  · simp
  · simp

/-- Readiness of an `ElfioAnalyzer`, in terms of the engine. -/
theorem Ready_Elfio_iff (eng : Engine) (a : ElfioAnalyzer) :
    Ready (ElfioReaderT eng) a ↔
      ∃ path, (eng.load eng.fresh path).1 = .returned true ∧
        a.m_elf_reader = { m_reader := some { sections := (eng.load eng.fresh path).2,
                                              load_calls := [path] } } := by
  unfold Ready
  constructor
  · rintro ⟨path, r0, hc, hl⟩
    have hr : r0 = { m_reader := some (elfio.ctor eng) } := by
      simpa [ElfioReaderT, ElfioReader.ctor, eq_comm] using hc
    subst hr
    exact ⟨path, (Load_fresh_ok_iff eng path _).1 hl⟩
  · rintro ⟨path, h⟩
    exact ⟨path, { m_reader := some (elfio.ctor eng) }, rfl, (Load_fresh_ok_iff eng path _).2 h⟩

/-- Over `ElfioReader` the move in `Create` hands the reader over unchanged, so
`Create` answers an analyzer exactly when `Load` on the fresh reader succeeded
with that analyzer's reader as the result. -/
theorem Create_Elfio_ok_iff_Load (eng : Engine) (path : String) (a : ElfioAnalyzer) :
    Analyzer.Create (ElfioReaderT eng) path = .returned (.ok a) ↔
      ElfioReader.Load eng { m_reader := some (elfio.ctor eng) } path =
        (.returned (.ok ()), a.m_elf_reader) := by
  rw [Create_ok_iff]
  constructor
  · rintro ⟨r0, r1, hc, hl, hm⟩
    have hr : r0 = { m_reader := some (elfio.ctor eng) } := by
      simpa [ElfioReaderT, ElfioReader.ctor, eq_comm] using hc
    subst hr
    have h1 : r1 = a.m_elf_reader := by
      simpa [ElfioReaderT, ElfioReader.move] using hm
    subst h1
    exact hl
  · intro h
    exact ⟨{ m_reader := some (elfio.ctor eng) }, a.m_elf_reader, rfl, h, rfl⟩

/-- An analyzer answered by `Create` over `ElfioReader`, in terms of the engine. -/
theorem Create_Elfio_ok_iff (eng : Engine) (path : String) (a : ElfioAnalyzer) :
    Analyzer.Create (ElfioReaderT eng) path = .returned (.ok a) ↔
      (eng.load eng.fresh path).1 = .returned true ∧
        a.m_elf_reader = { m_reader := some { sections := (eng.load eng.fresh path).2,
                                              load_calls := [path] } } := by
  rw [Create_Elfio_ok_iff_Load, Load_fresh_ok_iff]

/-- An analyzer answered by `Create` over `ElfioReader` is ready. -/
theorem Ready_of_Create (eng : Engine) (path : String) (a : ElfioAnalyzer)
    (h : Analyzer.Create (ElfioReaderT eng) path = .returned (.ok a)) :
    Ready (ElfioReaderT eng) a :=
  (Ready_Elfio_iff eng a).2 ⟨path, (Create_Elfio_ok_iff eng path a).1 h⟩

/-- Over `ElfioReader` the analyzer's query is the reader's query: the reader's
query never throws. -/
theorem Analyzer_query_Elfio (eng : Engine) (a : ElfioAnalyzer) :
    Analyzer.GetNumberOfInstructions (ElfioReaderT eng) a =
      ElfioReader.GetNumberOfInstructions a.m_elf_reader := by
  unfold Analyzer.GetNumberOfInstructions
  show (match ElfioReader.GetNumberOfInstructions a.m_elf_reader with
    | .raised _ => Outcome.terminated
    | outcome => outcome) = _
  unfold ElfioReader.GetNumberOfInstructions
  rcases a.m_elf_reader.m_reader with _ | e <;> rfl

/-! ## Lemmas about the caller-visible states -/

/-- A ready `ElfioAnalyzer` holds a non-null engine handle. -/
theorem Ready_handle_ne_none (eng : Engine) (a : ElfioAnalyzer)
    (h : Ready (ElfioReaderT eng) a) : a.m_elf_reader.m_reader ≠ none := by
  obtain ⟨path, _, hr⟩ := (Ready_Elfio_iff eng a).1 h
  rw [hr]
  simp

/-- On a ready `ElfioAnalyzer` the query returns a value. -/
theorem Ready_query_returns (eng : Engine) (a : ElfioAnalyzer)
    (h : Ready (ElfioReaderT eng) a) :
    ∃ n, Analyzer.GetNumberOfInstructions (ElfioReaderT eng) a = .returned n := by
  obtain ⟨path, _, hr⟩ := (Ready_Elfio_iff eng a).1 h
  refine ⟨countLoop 0 (eng.load eng.fresh path).2, ?_⟩
  rw [Analyzer_query_Elfio, hr]
  rfl

/-- The object built by move construction is equal, as a value, to its source. -/
theorem moveCtor_fst (a : ElfioAnalyzer) : (ElfioAnalyzer.moveCtor a).1 = a := rfl

/-- The target of a move assignment is equal, as a value, to the source. -/
theorem moveAssign_fst (d a : ElfioAnalyzer) : (ElfioAnalyzer.moveAssign d a).1 = a := rfl

/-- Forgetting the marks of one marked step gives the step of the plain store. -/
theorem stepMarked_fst (eng : Engine) (st : List (ElfioAnalyzer × Bool)) (op : Op) :
    (stepMarked eng st op).map Prod.fst = step eng (st.map Prod.fst) op := by
  cases op with
  | create path =>
    simp only [stepMarked, step]
    rcases Analyzer.Create (ElfioReaderT eng) path with res | w | _ | _
    · rcases res with err | a0 <;> simp
    · simp
    · simp
    · simp
  | moveConstruct src =>
    simp only [stepMarked, step, List.getElem?_map]
    rcases st[src]? with _ | p
    · simp
    · simp [List.map_set]
  | moveAssign dst src =>
    simp only [stepMarked, step, List.getElem?_map]
    rcases st[dst]? with _ | d
    · simp
    · rcases st[src]? with _ | p
      · simp
      · by_cases hEq : dst = src
        · simp [hEq]
        · simp [hEq, List.map_set]

/-- Forgetting the marks of a marked run gives the plain run. -/
theorem foldl_stepMarked_fst (eng : Engine) (ops : List Op) :
    ∀ st : List (ElfioAnalyzer × Bool),
      (ops.foldl (stepMarked eng) st).map Prod.fst =
        ops.foldl (step eng) (st.map Prod.fst) := by
  induction ops with
  | nil => intro st; rfl
  | cons op rest ih =>
    intro st
    rw [List.foldl_cons, List.foldl_cons, ih, stepMarked_fst]

/-- The plain run is the marked run with the marks forgotten. -/
theorem runMarked_fst (eng : Engine) (ops : List Op) :
    (runMarked eng ops).map Prod.fst = run eng ops :=
  foldl_stepMarked_fst eng ops []

/-- One caller operation keeps: unmarked variables ready, marked variables
null-handled. -/
theorem stepMarked_keeps (eng : Engine) (st : List (ElfioAnalyzer × Bool)) (op : Op)
    (hs : ∀ p ∈ st, (p.2 = false → Ready (ElfioReaderT eng) p.1) ∧
      (p.2 = true → p.1.m_elf_reader.m_reader = none)) :
    ∀ p ∈ stepMarked eng st op, (p.2 = false → Ready (ElfioReaderT eng) p.1) ∧
      (p.2 = true → p.1.m_elf_reader.m_reader = none) := by
  intro q hq
  cases op with
  | create path =>
    simp only [stepMarked] at hq
    rcases hC : Analyzer.Create (ElfioReaderT eng) path with res | w | _ | _
    · rcases res with err | a0
      · simp only [hC] at hq
        exact hs q hq
      · simp only [hC] at hq
        rcases List.mem_append.1 hq with h | h
        · exact hs q h
        · rw [List.mem_singleton] at h
          subst h
          exact ⟨fun _ => Ready_of_Create eng path a0 hC, fun h => absurd h (by simp)⟩
    · simp only [hC] at hq
      exact hs q hq
    · simp only [hC] at hq
      exact hs q hq
    · simp only [hC] at hq
      exact hs q hq
  | moveConstruct src =>
    simp only [stepMarked] at hq
    rcases hsrc : st[src]? with _ | p
    · simp only [hsrc] at hq
      exact hs q hq
    · simp only [hsrc] at hq
      rcases List.mem_append.1 hq with h | h
      · rcases List.mem_or_eq_of_mem_set h with h | h
        · exact hs q h
        · subst h
          exact ⟨fun h => absurd h (by simp), fun _ => rfl⟩
      · rw [List.mem_singleton, moveCtor_fst] at h
        subst h
        exact hs p (List.getElem?_mem hsrc)
  | moveAssign dst src =>
    simp only [stepMarked] at hq
    rcases hdst : st[dst]? with _ | d
    · simp only [hdst] at hq
      exact hs q hq
    · rcases hsrc : st[src]? with _ | p
      · simp only [hdst, hsrc] at hq
        exact hs q hq
      · simp only [hdst, hsrc] at hq
        by_cases hEq : dst = src
        · rw [if_pos hEq] at hq
          exact hs q hq
        · rw [if_neg hEq] at hq
          rcases List.mem_or_eq_of_mem_set hq with h | h
          · rcases List.mem_or_eq_of_mem_set h with h | h
            · exact hs q h
            · subst h
              exact ⟨fun h => absurd h (by simp), fun _ => rfl⟩
          · rw [moveAssign_fst] at h
            subst h
            exact hs p (List.getElem?_mem hsrc)

/-- Any sequence of caller operations keeps: unmarked variables ready, marked
variables null-handled. -/
theorem foldl_stepMarked_keeps (eng : Engine) (ops : List Op) :
    ∀ st : List (ElfioAnalyzer × Bool),
      (∀ p ∈ st, (p.2 = false → Ready (ElfioReaderT eng) p.1) ∧
        (p.2 = true → p.1.m_elf_reader.m_reader = none)) →
      ∀ p ∈ ops.foldl (stepMarked eng) st,
        (p.2 = false → Ready (ElfioReaderT eng) p.1) ∧
          (p.2 = true → p.1.m_elf_reader.m_reader = none) := by
  induction ops with
  | nil => intro st hs; exact hs
  | cons op rest ih =>
    intro st hs
    exact ih (stepMarked eng st op) (stepMarked_keeps eng st op hs)

/-- A sequence of `Create` calls alone marks no variable. -/
theorem foldl_stepMarked_creates (eng : Engine) (ops : List Op) :
    (∀ op ∈ ops, ∃ path, op = Op.create path) →
    ∀ st : List (ElfioAnalyzer × Bool), (∀ p ∈ st, p.2 = false) →
      ∀ p ∈ ops.foldl (stepMarked eng) st, p.2 = false := by
  induction ops with
  | nil => intro _ st hs; exact hs
  | cons op rest ih =>
    intro hops st hs
    refine ih (fun o ho => hops o (List.mem_cons_of_mem _ ho)) (stepMarked eng st op) ?_
    obtain ⟨path, hop⟩ := hops op (List.mem_cons_self _ _)
    subst hop
    intro q hq
    simp only [stepMarked] at hq
    rcases hC : Analyzer.Create (ElfioReaderT eng) path with res | w | _ | _
    · rcases res with err | a0
      · simp only [hC] at hq
        exact hs q hq
      · simp only [hC] at hq
        rcases List.mem_append.1 hq with h | h
        · exact hs q h
        · rw [List.mem_singleton] at h
          subst h
          rfl
    · simp only [hC] at hq
      exact hs q hq
    · simp only [hC] at hq
      exact hs q hq
    · simp only [hC] at hq
      exact hs q hq

/-- A variable of the plain run is a variable of the marked run, at the same
index, with some mark. -/
theorem runMarked_lookup (eng : Engine) (ops : List Op) (i : Nat) (a : ElfioAnalyzer)
    (h : (run eng ops)[i]? = some a) :
    ∃ mark, (runMarked eng ops)[i]? = some (a, mark) := by
  rw [← runMarked_fst, List.getElem?_map] at h
  rcases hp : (runMarked eng ops)[i]? with _ | p
  · rw [hp] at h
    simp at h
  · rw [hp] at h
    simp only [Option.map_some', Option.some.injEq] at h
    subst h
    exact ⟨p.2, rfl⟩

/-! ## The counting query -/

/-- C1 (as stated, refuted): on two program-bits sections of `2 ^ 63` bytes the
query answers 0, while the sum of the program-bits sizes is `2 ^ 64`. -/
theorem C1_exact_sum_fails_on_wrap :
    ElfioReader.GetNumberOfInstructions (readerOf hugeTable []) = .returned 0 ∧
      progbitsTotal hugeTable = 2 ^ 64 ∧
      ElfioReader.GetNumberOfInstructions (readerOf hugeTable []) ≠
        .returned (progbitsTotal hugeTable) := by
  decide

/-- C1 (amended): for every loaded section table whose program-bits sizes sum to
less than `2 ^ 64`, `GetNumberOfInstructions` returns the sum of `get_size` over
exactly the sections of type `SHT_PROGBITS`; and on every table, changing the
names and flags of the sections does not change the answer. -/
theorem C1_sum_of_progbits_sizes (secs : List Section) (calls : List String) :
    (progbitsTotal secs < 2 ^ SIZE_BITS →
      ElfioReader.GetNumberOfInstructions (readerOf secs calls) =
        .returned (progbitsTotal secs)) ∧
    (∀ (rename : Section → String) (reflag : Section → Nat),
      ElfioReader.GetNumberOfInstructions
          (readerOf (secs.map (fun s => { s with get_name := rename s, get_flags := reflag s }))
            calls) =
        ElfioReader.GetNumberOfInstructions (readerOf secs calls)) := by
  refine ⟨fun h => ?_, fun rename reflag => ?_⟩
  · rw [GetNumberOfInstructions_readerOf, Nat.mod_eq_of_lt h]
  · rw [GetNumberOfInstructions_readerOf, GetNumberOfInstructions_readerOf,
      progbitsTotal_map_frame
        (fun s => { s with get_name := rename s, get_flags := reflag s })
        (fun _ => rfl) (fun _ => rfl)]

/-- C1 witness: the table (program-bits, 128), (symbol-table, 64),
(program-bits, 32) sums to 160 and the query returns that sum. -/
theorem C1_sum_of_progbits_sizes_witness :
    progbitsTotal scenarioTable < 2 ^ SIZE_BITS ∧ progbitsTotal scenarioTable = 160 ∧
      ElfioReader.GetNumberOfInstructions (readerOf scenarioTable []) =
        .returned (progbitsTotal scenarioTable) :=
  ⟨by decide, by decide, (C1_sum_of_progbits_sizes scenarioTable []).1 (by decide)⟩

/-- C7: section tables that are permutations of one another give the same
`GetNumberOfInstructions`. -/
theorem C7_order_irrelevant (a b : List Section) (calls calls2 : List String)
    (h : a.Perm b) :
    ElfioReader.GetNumberOfInstructions (readerOf a calls) =
      ElfioReader.GetNumberOfInstructions (readerOf b calls2) := by
  rw [GetNumberOfInstructions_readerOf, GetNumberOfInstructions_readerOf,
    progbitsTotal_perm h]

/-- C7 witness: the scenario table read back to front. -/
theorem C7_order_irrelevant_witness :
    scenarioTable.reverse.Perm scenarioTable ∧
      ElfioReader.GetNumberOfInstructions (readerOf scenarioTable.reverse []) =
        ElfioReader.GetNumberOfInstructions (readerOf scenarioTable []) :=
  ⟨List.reverse_perm _,
    C7_order_irrelevant scenarioTable.reverse scenarioTable [] [] (List.reverse_perm _)⟩

/-- C8: a section table with no section of type `SHT_PROGBITS` (the empty table
included) gives `GetNumberOfInstructions = 0`. -/
theorem C8_no_progbits_zero (secs : List Section) (calls : List String)
    (h : ∀ s ∈ secs, s.get_type ≠ SHT_PROGBITS) :
    ElfioReader.GetNumberOfInstructions (readerOf secs calls) = .returned 0 := by
  rw [GetNumberOfInstructions_readerOf, progbitsTotal_eq_zero secs h]
  rfl

/-- C8 witness: a table holding only a symbol table of 64 bytes. -/
theorem C8_no_progbits_zero_witness :
    (∀ s ∈ [({ get_name := ".symtab", get_type := SHT_SYMTAB, get_flags := 0,
                get_size := 64 } : Section)], s.get_type ≠ SHT_PROGBITS) ∧
      ElfioReader.GetNumberOfInstructions
          (readerOf [{ get_name := ".symtab", get_type := SHT_SYMTAB, get_flags := 0,
                       get_size := 64 }] []) = .returned 0 :=
  ⟨by decide, C8_no_progbits_zero _ [] (by decide)⟩

/-- C10: `GetNumberOfInstructions` returns the sum of the program-bits sizes
reduced modulo `2 ^ 64`; that is the exact sum when the sum is below `2 ^ 64`;
when the sum is `2 ^ 64` or more the query still returns a value, one below
`2 ^ 64` and so different from the sum; two program-bits sections of `2 ^ 63`
bytes give 0. -/
theorem C10_sum_modulo_size_t (secs : List Section) (calls : List String) :
    ElfioReader.GetNumberOfInstructions (readerOf secs calls) =
        .returned (progbitsTotal secs % 2 ^ 64) ∧
    (progbitsTotal secs < 2 ^ 64 →
      ElfioReader.GetNumberOfInstructions (readerOf secs calls) =
        .returned (progbitsTotal secs)) ∧
    (2 ^ 64 ≤ progbitsTotal secs →
      ∃ n, ElfioReader.GetNumberOfInstructions (readerOf secs calls) = .returned n ∧
        n < 2 ^ 64 ∧ n ≠ progbitsTotal secs) ∧
    ElfioReader.GetNumberOfInstructions (readerOf hugeTable calls) = .returned 0 := by
  have hpos : 0 < 2 ^ 64 := by decide
  refine ⟨GetNumberOfInstructions_readerOf secs calls, fun h => ?_, fun h => ?_, ?_⟩
  · rw [GetNumberOfInstructions_readerOf]
    exact congrArg Outcome.returned (Nat.mod_eq_of_lt h)
  · refine ⟨progbitsTotal secs % 2 ^ 64, GetNumberOfInstructions_readerOf secs calls,
      Nat.mod_lt _ hpos, ?_⟩
    have hlt : progbitsTotal secs % 2 ^ 64 < 2 ^ 64 := Nat.mod_lt _ hpos
    omega
  · rw [GetNumberOfInstructions_readerOf]
    decide

/-- C10 witness: the wrap-around case and the exact case, on concrete tables. -/
theorem C10_sum_modulo_size_t_witness :
    (2 ^ 64 ≤ progbitsTotal hugeTable ∧
      ∃ n, ElfioReader.GetNumberOfInstructions (readerOf hugeTable []) = .returned n ∧
        n < 2 ^ 64 ∧ n ≠ progbitsTotal hugeTable) ∧
    (progbitsTotal scenarioTable < 2 ^ 64 ∧
      ElfioReader.GetNumberOfInstructions (readerOf scenarioTable []) =
        .returned (progbitsTotal scenarioTable)) :=
  ⟨⟨by decide, (C10_sum_modulo_size_t hugeTable []).2.2.1 (by decide)⟩,
    ⟨by decide, (C10_sum_modulo_size_t scenarioTable []).2.1 (by decide)⟩⟩

/-! ## Loading and construction -/

/-- C4: `ElfioReader::Load` on a constructed reader makes exactly one call to the
engine's `load`, with the given path; it answers success exactly when that call
returned true; when the call returned false or threw, it answers
`Error::kLoadElf`; and it never throws. -/
theorem C4_Load_single_attempt (eng : Engine) (e : elfio) (path : String) :
    (∃ e2, (ElfioReader.Load eng { m_reader := some e } path).2.m_reader = some e2 ∧
        e2.load_calls = e.load_calls ++ [path]) ∧
    ((ElfioReader.Load eng { m_reader := some e } path).1 = .returned (.ok ()) ↔
        (eng.load e.sections path).1 = .returned true) ∧
    (((eng.load e.sections path).1 = .returned false ∨
        ∃ what, (eng.load e.sections path).1 = .raised what) →
      (ElfioReader.Load eng { m_reader := some e } path).1 =
        .returned (.error Error.kLoadElf)) ∧
    (∀ what, (ElfioReader.Load eng { m_reader := some e } path).1 ≠ .raised what) := by
  rw [Load_reader, Load_result]
  refine ⟨⟨_, rfl, rfl⟩, ?_, ?_, ?_⟩
  · rcases h : (eng.load e.sections path).1 with b | w | _ | _
    · cases b <;> simp
    · simp
    · simp
    · simp
  · rintro (h | ⟨w, h⟩) <;> simp [h]
  · intro what
    rcases h : (eng.load e.sections path).1 with b | w | _ | _
    · cases b <;> simp
    · simp
    · simp
    · simp

/-- C4 witness: a path the engine cannot open, and a file on which it throws. -/
theorem C4_Load_single_attempt_witness :
    (ElfioReader.Load sampleEngine { m_reader := some (elfio.ctor sampleEngine) }
        "/nonexistent/path.elf").1 = .returned (.error Error.kLoadElf) ∧
    (ElfioReader.Load sampleEngine { m_reader := some (elfio.ctor sampleEngine) }
        "/broken.elf").1 = .returned (.error Error.kLoadElf) :=
  ⟨(C4_Load_single_attempt sampleEngine (elfio.ctor sampleEngine)
      "/nonexistent/path.elf").2.2.1 (Or.inl (by decide)),
   (C4_Load_single_attempt sampleEngine (elfio.ctor sampleEngine)
      "/broken.elf").2.2.1 (Or.inr ⟨"bad section table", by decide⟩)⟩

/-- C9: for every analyzer answered by `Create(path)` over `ElfioReader`,
`Analyzer::GetNumberOfInstructions` is the owned reader's
`GetNumberOfInstructions`, evaluated on the reader as `Load(path)` left it, that
is, the counting loop over the section table the engine's `load` produced. -/
theorem C9_query_delegates (eng : Engine) (path : String) (a : ElfioAnalyzer)
    (h : Analyzer.Create (ElfioReaderT eng) path = .returned (.ok a)) :
    Analyzer.GetNumberOfInstructions (ElfioReaderT eng) a =
        ElfioReader.GetNumberOfInstructions a.m_elf_reader ∧
    a.m_elf_reader =
        (ElfioReader.Load eng { m_reader := some (elfio.ctor eng) } path).2 ∧
    Analyzer.GetNumberOfInstructions (ElfioReaderT eng) a =
        ElfioReader.GetNumberOfInstructions
          (ElfioReader.Load eng { m_reader := some (elfio.ctor eng) } path).2 ∧
    Analyzer.GetNumberOfInstructions (ElfioReaderT eng) a =
        .returned (countLoop 0 (eng.load eng.fresh path).2) := by
  obtain ⟨_, hr⟩ := (Create_Elfio_ok_iff eng path a).1 h
  have hl : a.m_elf_reader =
      (ElfioReader.Load eng { m_reader := some (elfio.ctor eng) } path).2 := by
    rw [Load_reader, hr]
    simp [elfio.load, elfio.ctor]
  refine ⟨Analyzer_query_Elfio eng a, hl, ?_, ?_⟩
  · rw [Analyzer_query_Elfio, ← hl]
  · rw [Analyzer_query_Elfio, hr]
    rfl

/-- C9 witness: the analyzer created from `/code/data/test.elf` on the sample
engine reports 160. -/
theorem C9_query_delegates_witness :
    Analyzer.GetNumberOfInstructions (ElfioReaderT sampleEngine)
        { m_elf_reader := { m_reader := some sampleLoaded } } =
      .returned (countLoop 0 (sampleEngine.load sampleEngine.fresh "/code/data/test.elf").2) ∧
    countLoop 0 (sampleEngine.load sampleEngine.fresh "/code/data/test.elf").2 = 160 :=
  ⟨(C9_query_delegates sampleEngine "/code/data/test.elf"
      { m_elf_reader := { m_reader := some sampleLoaded } } rfl).2.2.2, by decide⟩

/-! ## Lifecycle: creation and moves -/

/-- C5 (as stated, refuted): after `Create` succeeds and the analyzer is used
as the source of a move construction, the source variable still names an
analyzer; its engine handle is null, it is not ready, and querying it is
undefined. -/
theorem C5_moved_from_instance_not_ready :
    ∃ a ∈ run sampleEngine [Op.create "/code/data/test.elf", Op.moveConstruct 0],
      a.m_elf_reader.m_reader = none ∧ ¬ Ready (ElfioReaderT sampleEngine) a ∧
        Analyzer.GetNumberOfInstructions (ElfioReaderT sampleEngine) a = .undefined := by
  refine ⟨{ m_elf_reader := { m_reader := none } }, by decide, rfl, ?_, rfl⟩
  intro h
  exact Ready_handle_ne_none sampleEngine _ h rfl

/-- C5 (amended): in every state reachable by `Create`, move constructions and
move assignments, every analyzer a caller can name is in one of two states.
Either it is unmarked (it was made by `Create`, or received its reader by a
move from an unmarked analyzer, and has not since been the source of a move):
then it owns a reader in the state a successful `Load` left it and its query
returns a value.  Or it is marked (it was the source of a move, or received
its reader by a move from a marked analyzer): then it holds the null engine
handle and is not ready.  In particular, when no move was made, every analyzer
is ready. -/
theorem C5_ready_or_moved_from (eng : Engine) (ops : List Op) (i : Nat)
    (a : ElfioAnalyzer) (h : (run eng ops)[i]? = some a) :
    (((runMarked eng ops)[i]? = some (a, false) ∧ Ready (ElfioReaderT eng) a ∧
        ∃ n, Analyzer.GetNumberOfInstructions (ElfioReaderT eng) a = .returned n) ∨
      ((runMarked eng ops)[i]? = some (a, true) ∧ a.m_elf_reader.m_reader = none ∧
        ¬ Ready (ElfioReaderT eng) a)) ∧
    ((∀ op ∈ ops, ∃ path, op = Op.create path) → Ready (ElfioReaderT eng) a) := by
  obtain ⟨mark, hmark⟩ := runMarked_lookup eng ops i a h
  have hmem : (a, mark) ∈ runMarked eng ops := List.getElem?_mem hmark
  have hkeep := foldl_stepMarked_keeps eng ops []
    (fun _ hx => absurd hx (List.not_mem_nil _)) (a, mark) hmem
  constructor
  · cases mark with
    | false =>
      have hr : Ready (ElfioReaderT eng) a := hkeep.1 rfl
      exact Or.inl ⟨hmark, hr, Ready_query_returns eng a hr⟩
    | true =>
      have hn : a.m_elf_reader.m_reader = none := hkeep.2 rfl
      exact Or.inr ⟨hmark, hn, fun hr => Ready_handle_ne_none eng a hr hn⟩
  · intro hops
    have hfalse : mark = false :=
      foldl_stepMarked_creates eng ops hops []
        (fun _ hx => absurd hx (List.not_mem_nil _)) (a, mark) hmem
    exact hkeep.1 hfalse

/-- C5 witness: after a create and a move construction, variable 1 (the new
one) is unmarked and ready, and the lookup hypothesis is met. -/
theorem C5_ready_or_moved_from_witness :
    (run sampleEngine [Op.create "/code/data/test.elf", Op.moveConstruct 0])[1]? =
        some { m_elf_reader := { m_reader := some sampleLoaded } } ∧
    (((runMarked sampleEngine [Op.create "/code/data/test.elf", Op.moveConstruct 0])[1]? =
          some ({ m_elf_reader := { m_reader := some sampleLoaded } }, false) ∧
        Ready (ElfioReaderT sampleEngine) { m_elf_reader := { m_reader := some sampleLoaded } } ∧
        ∃ n, Analyzer.GetNumberOfInstructions (ElfioReaderT sampleEngine)
          { m_elf_reader := { m_reader := some sampleLoaded } } = .returned n) ∨
      ((runMarked sampleEngine [Op.create "/code/data/test.elf", Op.moveConstruct 0])[1]? =
          some ({ m_elf_reader := { m_reader := some sampleLoaded } }, true) ∧
        ({ m_elf_reader := { m_reader := some sampleLoaded } } :
          ElfioAnalyzer).m_elf_reader.m_reader = none ∧
        ¬ Ready (ElfioReaderT sampleEngine)
          { m_elf_reader := { m_reader := some sampleLoaded } })) :=
  ⟨by decide,
   (C5_ready_or_moved_from sampleEngine [Op.create "/code/data/test.elf", Op.moveConstruct 0]
     1 { m_elf_reader := { m_reader := some sampleLoaded } } (by decide)).1⟩

/-- C6: moving a ready analyzer transfers its reader and its query result.  For
a ready analyzer held in variable `src`: the variable created by move
construction from it, and any variable move-assigned from it, afterwards hold
the reader (engine and section table) the source held, and
`GetNumberOfInstructions` on them returns the value it returned on the source
before the move. -/
theorem C6_move_transfers (eng : Engine) (s : List ElfioAnalyzer) (src : Nat)
    (a : ElfioAnalyzer) (hsrc : s[src]? = some a) (hready : Ready (ElfioReaderT eng) a) :
    (∃ b n, (step eng s (Op.moveConstruct src))[s.length]? = some b ∧
        b.m_elf_reader = a.m_elf_reader ∧
        Analyzer.GetNumberOfInstructions (ElfioReaderT eng) a = .returned n ∧
        Analyzer.GetNumberOfInstructions (ElfioReaderT eng) b = .returned n) ∧
    (∀ dst, dst < s.length →
      ∃ b n, (step eng s (Op.moveAssign dst src))[dst]? = some b ∧
        b.m_elf_reader = a.m_elf_reader ∧
        Analyzer.GetNumberOfInstructions (ElfioReaderT eng) a = .returned n ∧
        Analyzer.GetNumberOfInstructions (ElfioReaderT eng) b = .returned n) := by
  obtain ⟨path, _, hm⟩ := (Ready_Elfio_iff eng a).1 hready
  have hq : Analyzer.GetNumberOfInstructions (ElfioReaderT eng) a =
      .returned (countLoop 0 (eng.load eng.fresh path).2) := by
    rw [Analyzer_query_Elfio, hm]
    rfl
  constructor
  · refine ⟨a, _, ?_, rfl, hq, hq⟩
    simp only [step, hsrc, moveCtor_fst]
    have hlen : (s.set src (ElfioAnalyzer.moveCtor a).2).length = s.length :=
      List.length_set _ _ _
    rw [← hlen]
    exact List.getElem?_concat_length _ _
  · intro dst hdst
    refine ⟨a, _, ?_, rfl, hq, hq⟩
    simp only [step]
    obtain ⟨d, hd⟩ : ∃ d, s[dst]? = some d := ⟨s[dst], List.getElem?_eq_getElem hdst⟩
    simp only [hd, hsrc]
    by_cases hEq : dst = src
    · rw [if_pos hEq, hEq]
      exact hsrc
    · rw [if_neg hEq, moveAssign_fst]
      exact List.getElem?_set_self (by rw [List.length_set]; exact hdst)

/-- C6 witness: two analyzers created on the sample engine; the first is moved
into a new variable and into the second. -/
theorem C6_move_transfers_witness :
    (∃ b n, (step sampleEngine
          (run sampleEngine [Op.create "/code/data/test.elf", Op.create "/code/data/test.elf"])
          (Op.moveConstruct 0))[(run sampleEngine
            [Op.create "/code/data/test.elf", Op.create "/code/data/test.elf"]).length]? = some b ∧
        b.m_elf_reader = { m_reader := some sampleLoaded } ∧
        Analyzer.GetNumberOfInstructions (ElfioReaderT sampleEngine)
          { m_elf_reader := { m_reader := some sampleLoaded } } = .returned n ∧
        Analyzer.GetNumberOfInstructions (ElfioReaderT sampleEngine) b = .returned n) :=
  (C6_move_transfers sampleEngine
    (run sampleEngine [Op.create "/code/data/test.elf", Op.create "/code/data/test.elf"]) 0
    { m_elf_reader := { m_reader := some sampleLoaded } } (by decide)
    ⟨"/code/data/test.elf", { m_reader := some (elfio.ctor sampleEngine) }, rfl, rfl⟩).1

end rparse
